import Mathlib

/-!
Verification of the range-selection state machine of
`packages/@react-stately/calendar/src/useRangeCalendarState.ts`.

The hook's React state (`value`, `anchorDate`, `availableRange`, the grid's
visible window, `isDragging`) is embedded as an explicit state record, and the
hook's operations become state-transition functions.  Dates are embedded as
records carrying a calendar-system identifier, an epoch-day number and an
optional time-of-day; calendar-arithmetic collaborators from
`@internationalized/date` and the helpers of `./utils` (which are part of the
repository but outside the provided sources) are modelled from the spec.
-/

namespace RangeCal

/-- Modelled from the spec: a `DateValue` of `@react-types/calendar` is a date
in a specific calendar system, optionally carrying a time-of-day component.
`cal` identifies the calendar system, `day` is the underlying day
(the instant-of-day, preserved by cross-calendar conversion), and `time` is
the optional time-of-day.  A `CalendarDate` is a `DateValue` whose `time` is
`none`. -/
structure DateValue where
  cal : Nat
  day : Int
  time : Option Nat
deriving DecidableEq, Repr

/-- Modelled from the spec: the default (Gregorian) calendar system used when
no prior value supplies one (`new GregorianCalendar()` in the source). -/
def gregorian : Nat := 0

/-- Modelled from the spec: date comparison of `@internationalized/date`
(`a.compare(b)`), negative when `a` is before `b`, zero on the same day,
positive when after. -/
def DateValue.compareD (a b : DateValue) : Int := a.day - b.day

/-- Modelled from the spec: `toCalendarDate` of `@internationalized/date`
drops the time-of-day component, keeping the calendar system and the day. -/
def toCalendarDate (v : DateValue) : DateValue := { v with time := none }

/-- Modelled from the spec: `toCalendar` of `@internationalized/date` converts
a value into another calendar system without loss of the underlying day or of
the time-of-day. -/
def toCalendar (v : DateValue) (c : Nat) : DateValue := { v with cal := c }

/-- Modelled from the spec: `oldValue.set(newValue)` replaces the date portion
of `oldValue` with that of `newValue` (already converted into `oldValue`'s
calendar system by the caller), keeping `oldValue`'s calendar and
time-of-day. -/
def DateValue.set (old n : DateValue) : DateValue := { old with day := n.day }

/-- A committed range `{start, end}` (`end` is a reserved word in Lean, so the
field is named `endV`). -/
structure DateRange where
  start : DateValue
  endV : DateValue
deriving DecidableEq, Repr

/-- The availability scanner's output: each side may be absent
(`{start: nextUnavailableDate(date, state, -1), end: nextUnavailableDate(date, state, 1)}`). -/
structure AvailableRange where
  start : Option DateValue
  endV : Option DateValue
deriving DecidableEq, Repr

/-- The `ValidationState` values of the caller-facing surface. -/
inductive VState where
  | valid
  | invalid
deriving DecidableEq, Repr

/-- The initial window alignment chosen from an existing committed value. -/
inductive Alignment where
  | center
  | start
deriving DecidableEq, Repr

/-- The configuration surface of the hook (props that the claims exercise).
`isDateUnavailable` receives the day of the queried date.  `gridIsInvalid`
stands for the external grid's per-cell invalid check (`calendar.isInvalid`),
`alignCenterF` for the external `alignCenter` helper (the day at which the
window centered on a given day starts), and `addVisibleDur` for
`date.add(visibleDuration)` of the calendar-arithmetic collaborator; all three
are external collaborators per the spec and are kept abstract. -/
structure Config where
  minValue : Option DateValue
  maxValue : Option DateValue
  isDateUnavailable : Option (Int → Bool)
  allowsNonContiguousRanges : Bool
  isReadOnly : Bool
  validationStateProp : Option VState
  gridIsInvalid : Int → Bool
  alignCenterF : Int → Int
  addVisibleDur : Int → Int

/-- The hook's state: the committed value, the anchor date, the stored
available range (the source keeps it both in a ref and in React state, always
written together, so one field suffices), the grid's visible window
(`calendar.visibleRange`, reduced to its start/end days) and the drag flag. -/
structure RState where
  value : Option DateRange
  anchorDate : Option DateValue
  availableRange : Option AvailableRange
  visibleStart : Int
  visibleEnd : Int
  isDragging : Bool
deriving DecidableEq, Repr

/-- A fresh state with no anchor and no available range, as produced by the
hook's initial render. -/
def initState (v : Option DateRange) (ws we : Int) : RState :=
  { value := v, anchorDate := none, availableRange := none,
    visibleStart := ws, visibleEnd := we, isDragging := false }

/-- The grid's `isCellUnavailable`: the caller predicate when supplied, else
false. -/
def cellUnavailable (cfg : Config) (d : Int) : Bool :=
  match cfg.isDateUnavailable with
  | some p => p d
  | none => false

/-- Modelled from the spec: `maxDate` of `@internationalized/date` — the later
of two dates, a missing one acting as identity. -/
def maxDateO : Option DateValue → Option DateValue → Option DateValue
  | some a, some b => if 0 ≤ a.compareD b then some a else some b
  | some a, none => some a
  | none, b => b

/-- Modelled from the spec: `minDate` of `@internationalized/date` — the
earlier of two dates, a missing one acting as identity. -/
def minDateO : Option DateValue → Option DateValue → Option DateValue
  | some a, some b => if a.compareD b ≤ 0 then some a else some b
  | some a, none => some a
  | none, b => b

/-- Modelled from the spec: `constrainValue` of `./utils` clamps a candidate
into `[min, max]`, a missing bound acting as identity on its side. -/
def constrainValue (date : DateValue) (minV maxV : Option DateValue) : DateValue :=
  let d1 := match minV with
    | some m => if 0 ≤ date.compareD (toCalendarDate m) then date else toCalendarDate m
    | none => date
  match maxV with
  | some m => if d1.compareD (toCalendarDate m) ≤ 0 then d1 else toCalendarDate m
  | none => d1

/-- Fuel-driven walk of the snap-backward loop: step down one day while the
day is at or after `minDay` and unavailable.  The fuel is always chosen large
enough for the walk to reach its stopping day. -/
def prevScanF (minDay : Int) (p : Int → Bool) : Nat → Int → Int
  | 0, d => d
  | fuel + 1, d => if minDay ≤ d ∧ p d = true then prevScanF minDay p fuel (d - 1) else d

/-- Modelled from the spec: `previousAvailableDate` of `./utils` — with no
unavailability predicate the date is returned unchanged; otherwise the date
moves day by day toward `minDay` while it is unavailable, and the result is
the date reached if it is still at or after `minDay`, else absent. -/
def previousAvailableDate (date : DateValue) (minDay : Int)
    (pred : Option (Int → Bool)) : Option DateValue :=
  match pred with
  | none => some date
  | some p =>
    let d := prevScanF minDay p (date.day - minDay + 1).toNat date.day
    if minDay ≤ d then some { date with day := d } else none

/-- Fuel-driven walk of `nextUnavailableDate`'s loop in the forward direction:
step up one day while the day is at most `visEnd` and available. -/
def upScanF (visEnd : Int) (p : Int → Bool) : Nat → Int → Int
  | 0, d => d
  | fuel + 1, d => if d ≤ visEnd ∧ p d = false then upScanF visEnd p fuel (d + 1) else d

/-- Fuel-driven walk of `nextUnavailableDate`'s loop in the backward
direction: step down one day while the day is at least `visStart` and
available. -/
def downScanF (visStart : Int) (p : Int → Bool) : Nat → Int → Int
  | 0, d => d
  | fuel + 1, d => if visStart ≤ d ∧ p d = false then downScanF visStart p fuel (d - 1) else d

/-- `nextUnavailableDate(anchorDate, state, dir)` of the source: walk from
`anchorDate + dir` one day at a time while inside the visible window in
direction `dir` and available; if the stopping date is unavailable return the
date one step back toward the anchor, else null. -/
def nextUnavailableDate (anchor : DateValue) (visStart visEnd : Int)
    (p : Int → Bool) (dir : Int) : Option DateValue :=
  let stop :=
    if dir < 0 then downScanF visStart p (anchor.day + dir - visStart + 1).toNat (anchor.day + dir)
    else upScanF visEnd p (visEnd + 1 - (anchor.day + dir)).toNat (anchor.day + dir)
  if p stop = true then some { anchor with day := stop - dir } else none

/-- `updateAvailableRange(date)` of the source: with a date, a caller
unavailability predicate and contiguous ranges required, store the two
directional scan results; otherwise clear the stored range. -/
def updateAvailableRange (cfg : Config) (date : Option DateValue) (s : RState) : RState :=
  match date, cfg.isDateUnavailable, cfg.allowsNonContiguousRanges with
  | some d, some p, false =>
    let ar : AvailableRange :=
      { start := nextUnavailableDate d s.visibleStart s.visibleEnd p (-1),
        endV := nextUnavailableDate d s.visibleStart s.visibleEnd p 1 }
    { s with availableRange := some ar }
  | _, _, _ => { s with availableRange := none }

/-- `setAnchorDate(date)` of the source: store the anchor and recompute the
available range from it (both branches of the source collapse to this). -/
def setAnchorDate (cfg : Config) (date : Option DateValue) (s : RState) : RState :=
  updateAvailableRange cfg date { s with anchorDate := date }

/-- The render-time reaction to a changed visible range: adopt the new window
and recompute the available range from the current anchor. -/
def setVisibleRange (cfg : Config) (ws we : Int) (s : RState) : RState :=
  updateAvailableRange cfg s.anchorDate { s with visibleStart := ws, visibleEnd := we }

/-- `min` of the source: `maxDate(minValue, availableRange?.start)`. -/
def minB (cfg : Config) (s : RState) : Option DateValue :=
  maxDateO cfg.minValue (s.availableRange.bind AvailableRange.start)

/-- `max` of the source: `minDate(maxValue, availableRange?.end)`. -/
def maxB (cfg : Config) (s : RState) : Option DateValue :=
  minDateO cfg.maxValue (s.availableRange.bind AvailableRange.endV)

/-- `makeRange(start, end)` of the source: null if either endpoint is missing,
else the endpoints swapped when `end < start` and reduced to calendar dates. -/
def makeRange : Option DateValue → Option DateValue → Option DateRange
  | some start, some e =>
    if e.compareD start < 0 then
      some { start := toCalendarDate e, endV := toCalendarDate start }
    else
      some { start := toCalendarDate start, endV := toCalendarDate e }
  | _, _ => none

/-- `convertValue(newValue, oldValue)` of the source: convert the new endpoint
into the calendar system of the old endpoint if one exists, else Gregorian;
if the old endpoint carried a time-of-day, keep it and change only the date
portion. -/
def convertValue (newValue : DateValue) (oldValue : Option DateValue) : DateValue :=
  let n := toCalendar newValue (match oldValue with | some o => o.cal | none => gregorian)
  match oldValue with
  | some o => if o.time.isSome then DateValue.set o n else n
  | none => n

/-- The committed range built by the second pick (the object literal of the
source's `setValue` call): each endpoint of the normalized range converted
against the corresponding endpoint of the prior committed value. -/
def commitRange (old : Option DateRange) (r : DateRange) : DateRange :=
  { start := convertValue r.start (old.map DateRange.start),
    endV := convertValue r.endV (old.map DateRange.endV) }

/-- `selectDate(date)` of the source: drop the pick when read-only; clamp into
`[min, max]`; snap backward to the previous available date and drop the pick
when none exists; then either set the anchor (no anchor active) or commit the
normalized, converted range and clear the anchor. -/
def selectDate (cfg : Config) (date : DateValue) (s : RState) : RState :=
  if cfg.isReadOnly then s
  else
    let d1 := constrainValue date (minB cfg s) (maxB cfg s)
    match previousAvailableDate d1 s.visibleStart cfg.isDateUnavailable with
    | none => s
    | some d2 =>
      match s.anchorDate with
      | none => setAnchorDate cfg (some d2) s
      | some a =>
        match makeRange (some a) (some d2) with
        | some range => setAnchorDate cfg none { s with value := some (commitRange s.value range) }
        | none => s

/-- Modelled from the spec: `isInvalid(date, minValue, maxValue)` of `./utils`
— true iff the date falls before `minValue` or after `maxValue`, a missing
bound imposing no constraint. -/
def isInvalidB (date : DateValue) (minV maxV : Option DateValue) : Bool :=
  (match minV with | some m => decide (date.compareD m < 0) | none => false) ||
  (match maxV with | some m => decide (0 < date.compareD m) | none => false)

/-- `isInvalidSelection` of the source: false without a value or with an
active anchor; else true when the caller predicate marks either endpoint
unavailable or either endpoint violates the caller bounds. -/
def isInvalidSelection (cfg : Config) (s : RState) : Bool :=
  match s.value, s.anchorDate with
  | some v, none =>
    (match cfg.isDateUnavailable with
     | some p => p v.start.day || p v.endV.day
     | none => false) ||
    isInvalidB v.start cfg.minValue cfg.maxValue ||
    isInvalidB v.endV cfg.minValue cfg.maxValue
  | _, _ => false

/-- `validationState` of the source:
`props.validationState || (isInvalidSelection ? 'invalid' : null)`. -/
def validationState (cfg : Config) (s : RState) : Option VState :=
  match cfg.validationStateProp with
  | some v => some v
  | none => if isInvalidSelection cfg s then some VState.invalid else none

/-- The returned `isInvalid(date)` member: the grid's own per-cell check, or
the date violating the stored available range's bounds. -/
def rangeIsInvalid (cfg : Config) (s : RState) (date : DateValue) : Bool :=
  cfg.gridIsInvalid date.day ||
  isInvalidB date (s.availableRange.bind AvailableRange.start)
    (s.availableRange.bind AvailableRange.endV)

/-- The initial window alignment computed from a committed value: centered on
the value's start, switched to start-anchored when the value's end compares
after the last day of the centered window. -/
def alignmentOf (cfg : Config) (value : Option DateRange) : Alignment :=
  match value with
  | some v =>
    let ws := cfg.alignCenterF (toCalendarDate v.start).day
    let weD := cfg.addVisibleDur ws - 1
    if 0 < v.endV.compareD { v.endV with day := weD } then Alignment.start
    else Alignment.center
  | none => Alignment.center

/-- A configuration with no caller bounds and day 5 unavailable. -/
def cfgA : Config :=
  { minValue := none, maxValue := none,
    isDateUnavailable := some (fun d => decide (d = 5)),
    allowsNonContiguousRanges := false, isReadOnly := false,
    validationStateProp := none, gridIsInvalid := fun _ => false,
    alignCenterF := id, addVisibleDur := id }

/-- A configuration with bounds 0..50 and only day 100 unavailable (no
obstruction inside the windows the tests use). -/
def cfgB : Config :=
  { minValue := some { cal := 0, day := 0, time := none },
    maxValue := some { cal := 0, day := 50, time := none },
    isDateUnavailable := some (fun d => decide (d = 100)),
    allowsNonContiguousRanges := false, isReadOnly := false,
    validationStateProp := none, gridIsInvalid := fun _ => false,
    alignCenterF := id, addVisibleDur := id }

/-- A configuration with bounds 10..20 whose whole interval 10..20 is
unavailable. -/
def cfgC : Config :=
  { minValue := some { cal := 0, day := 10, time := none },
    maxValue := some { cal := 0, day := 20, time := none },
    isDateUnavailable := some (fun d => decide (10 ≤ d ∧ d ≤ 20)),
    allowsNonContiguousRanges := false, isReadOnly := false,
    validationStateProp := none, gridIsInvalid := fun _ => false,
    alignCenterF := id, addVisibleDur := id }

/-- A configuration with an explicit caller validation flag of `valid` while
day 5 is unavailable. -/
def cfgD : Config :=
  { minValue := none, maxValue := none,
    isDateUnavailable := some (fun d => decide (d = 5)),
    allowsNonContiguousRanges := false, isReadOnly := false,
    validationStateProp := some VState.valid, gridIsInvalid := fun _ => false,
    alignCenterF := id, addVisibleDur := id }

/-- The read-only variant of `cfgA`. -/
def cfgRO : Config :=
  { minValue := none, maxValue := none,
    isDateUnavailable := some (fun d => decide (d = 5)),
    allowsNonContiguousRanges := false, isReadOnly := true,
    validationStateProp := none, gridIsInvalid := fun _ => false,
    alignCenterF := id, addVisibleDur := id }

/-- A configuration with no predicate and no bounds. -/
def cfgE : Config :=
  { minValue := none, maxValue := none,
    isDateUnavailable := none,
    allowsNonContiguousRanges := false, isReadOnly := false,
    validationStateProp := none, gridIsInvalid := fun _ => false,
    alignCenterF := id, addVisibleDur := id }

/-- A configuration with bounds 0..50 and no unavailability predicate. -/
def cfgF : Config :=
  { minValue := some { cal := 0, day := 0, time := none },
    maxValue := some { cal := 0, day := 50, time := none },
    isDateUnavailable := none,
    allowsNonContiguousRanges := false, isReadOnly := false,
    validationStateProp := none, gridIsInvalid := fun _ => false,
    alignCenterF := id, addVisibleDur := id }

/-- The pure date on day `d` in calendar system `c`. -/
def mkDate (c : Nat) (d : Int) : DateValue := { cal := c, day := d, time := none }

/-- The date on day `d` in calendar system `c` carrying time-of-day `t`. -/
def mkDateTime (c : Nat) (d : Int) (t : Nat) : DateValue := { cal := c, day := d, time := some t }

/-- A state anchored on day 3 with window 0..30 and no committed value. -/
def sAnch : RState :=
  { value := none, anchorDate := some (mkDate 0 3), availableRange := none,
    visibleStart := 0, visibleEnd := 30, isDragging := false }

/-- A state anchored on day 3 whose committed value has a start in calendar
system 2 carrying time-of-day 9 and a pure-date end in calendar system 1. -/
def sTime : RState :=
  { value := some { start := mkDateTime 2 5 9, endV := mkDate 1 8 },
    anchorDate := some (mkDate 0 3), availableRange := none,
    visibleStart := 0, visibleEnd := 30, isDragging := false }

/-- The stored-available-range invariant: the available range is present only
while an anchor is set, a caller unavailability predicate is supplied and
non-contiguous ranges are not allowed. -/
def arInvariant (cfg : Config) (s : RState) : Prop :=
  s.availableRange.isSome = true →
    s.anchorDate.isSome = true ∧ cfg.isDateUnavailable.isSome = true ∧
      cfg.allowsNonContiguousRanges = false

@[simp]
theorem toCalendarDate_day (v : DateValue) : (toCalendarDate v).day = v.day := rfl

@[simp]
theorem toCalendarDate_cal (v : DateValue) : (toCalendarDate v).cal = v.cal := rfl

@[simp]
theorem toCalendarDate_time (v : DateValue) : (toCalendarDate v).time = none := rfl

theorem compareD_eq (a b : DateValue) : a.compareD b = a.day - b.day := rfl

theorem maxDateO_none_right (a : Option DateValue) : maxDateO a none = a := by
  cases a <;> rfl

theorem minDateO_none_right (a : Option DateValue) : minDateO a none = a := by
  cases a <;> rfl

theorem upScanF_spec (visEnd : Int) (p : Int → Bool) :
    ∀ (fuel : Nat) (d m : Int), m - d ≤ fuel → d ≤ m →
      (∀ j, d ≤ j → j < m → j ≤ visEnd ∧ p j = false) →
      ¬(m ≤ visEnd ∧ p m = false) →
      upScanF visEnd p fuel d = m := by
  intro fuel
  induction fuel with
  | zero =>
    intro d m h1 h2 _ _
    have h : d = m := by omega
    subst h
    rfl
  | succ n ih =>
    intro d m h1 h2 hall hstop
    rcases eq_or_lt_of_le h2 with heq | hlt
    · subst heq
      show (if d ≤ visEnd ∧ p d = false then upScanF visEnd p n (d + 1) else d) = d
      rw [if_neg hstop]
    · have hd := hall d le_rfl hlt
      show (if d ≤ visEnd ∧ p d = false then upScanF visEnd p n (d + 1) else d) = m
      rw [if_pos ⟨hd.1, hd.2⟩]
      exact ih (d + 1) m (by omega) (by omega) (fun j hj1 hj2 => hall j (by omega) hj2) hstop

theorem downScanF_spec (visStart : Int) (p : Int → Bool) :
    ∀ (fuel : Nat) (d m : Int), d - m ≤ fuel → m ≤ d →
      (∀ j, m < j → j ≤ d → visStart ≤ j ∧ p j = false) →
      ¬(visStart ≤ m ∧ p m = false) →
      downScanF visStart p fuel d = m := by
  intro fuel
  induction fuel with
  | zero =>
    intro d m h1 h2 _ _
    have h : d = m := by omega
    subst h
    rfl
  | succ n ih =>
    intro d m h1 h2 hall hstop
    rcases eq_or_lt_of_le h2 with heq | hlt
    · subst heq
      show (if visStart ≤ m ∧ p m = false then downScanF visStart p n (m - 1) else m) = m
      rw [if_neg hstop]
    · have hd := hall d hlt le_rfl
      show (if visStart ≤ d ∧ p d = false then downScanF visStart p n (d - 1) else d) = m
      rw [if_pos ⟨hd.1, hd.2⟩]
      exact ih (d - 1) m (by omega) (by omega) (fun j hj1 hj2 => hall j hj1 (by omega)) hstop

theorem prevScanF_spec (minDay : Int) (p : Int → Bool) :
    ∀ (fuel : Nat) (d m : Int), d - m ≤ fuel → m ≤ d →
      (∀ j, m < j → j ≤ d → minDay ≤ j ∧ p j = true) →
      ¬(minDay ≤ m ∧ p m = true) →
      prevScanF minDay p fuel d = m := by
  intro fuel
  induction fuel with
  | zero =>
    intro d m h1 h2 _ _
    have h : d = m := by omega
    subst h
    rfl
  | succ n ih =>
    intro d m h1 h2 hall hstop
    rcases eq_or_lt_of_le h2 with heq | hlt
    · subst heq
      show (if minDay ≤ m ∧ p m = true then prevScanF minDay p n (m - 1) else m) = m
      rw [if_neg hstop]
    · have hd := hall d hlt le_rfl
      show (if minDay ≤ d ∧ p d = true then prevScanF minDay p n (d - 1) else d) = m
      rw [if_pos ⟨hd.1, hd.2⟩]
      exact ih (d - 1) m (by omega) (by omega) (fun j hj1 hj2 => hall j hj1 (by omega)) hstop

theorem upScanF_ge (visEnd : Int) (p : Int → Bool) :
    ∀ (fuel : Nat) (d : Int), d ≤ upScanF visEnd p fuel d := by
  intro fuel
  induction fuel with
  | zero => intro d; exact le_rfl
  | succ n ih =>
    intro d
    show d ≤ if d ≤ visEnd ∧ p d = false then upScanF visEnd p n (d + 1) else d
    split
    · have := ih (d + 1); omega
    · exact le_rfl

theorem downScanF_le (visStart : Int) (p : Int → Bool) :
    ∀ (fuel : Nat) (d : Int), downScanF visStart p fuel d ≤ d := by
  intro fuel
  induction fuel with
  | zero => intro d; exact le_rfl
  | succ n ih =>
    intro d
    show (if visStart ≤ d ∧ p d = false then downScanF visStart p n (d - 1) else d) ≤ d
    split
    · have := ih (d - 1); omega
    · exact le_rfl

theorem isInvalidB_false_iff (d : DateValue) (lo hi : Option DateValue) :
    isInvalidB d lo hi = false ↔ (∀ m ∈ lo, m.day ≤ d.day) ∧ (∀ m ∈ hi, d.day ≤ m.day) := by
  cases lo <;> cases hi <;>
    (simp [isInvalidB, DateValue.compareD, Option.mem_def]; try omega)

theorem constrain_id (d : DateValue) (lo hi : Option DateValue)
    (h : isInvalidB d lo hi = false) : constrainValue d lo hi = d := by
  rw [isInvalidB_false_iff] at h
  obtain ⟨h1, h2⟩ := h
  cases lo with
  | none =>
    cases hi with
    | none => rfl
    | some u =>
      have hu : d.day ≤ u.day := h2 u rfl
      show (if d.compareD (toCalendarDate u) ≤ 0 then d else toCalendarDate u) = d
      rw [if_pos (show d.compareD (toCalendarDate u) ≤ 0 by
        simp only [DateValue.compareD, toCalendarDate_day]; omega)]
  | some l =>
    have hl : l.day ≤ d.day := h1 l rfl
    cases hi with
    | none =>
      show (if 0 ≤ d.compareD (toCalendarDate l) then d else toCalendarDate l) = d
      rw [if_pos (show 0 ≤ d.compareD (toCalendarDate l) by
        simp only [DateValue.compareD, toCalendarDate_day]; omega)]
    | some u =>
      have hu : d.day ≤ u.day := h2 u rfl
      show (if (if 0 ≤ d.compareD (toCalendarDate l) then d else toCalendarDate l).compareD
            (toCalendarDate u) ≤ 0 then
            (if 0 ≤ d.compareD (toCalendarDate l) then d else toCalendarDate l)
          else toCalendarDate u) = d
      rw [if_pos (show 0 ≤ d.compareD (toCalendarDate l) by
        simp only [DateValue.compareD, toCalendarDate_day]; omega)]
      rw [if_pos (show d.compareD (toCalendarDate u) ≤ 0 by
        simp only [DateValue.compareD, toCalendarDate_day]; omega)]

theorem constrain_day_hi (d : DateValue) (lo : Option DateValue) (u : DateValue) :
    (constrainValue d lo (some u)).day ≤ u.day := by
  cases lo <;>
    simp only [constrainValue, DateValue.compareD, apply_ite DateValue.day,
      toCalendarDate_day] <;> split_ifs <;> omega

theorem constrain_day_bounds (d : DateValue) (lo hi : Option DateValue)
    (h : ∀ l ∈ lo, ∀ u ∈ hi, l.day ≤ u.day) :
    (∀ l ∈ lo, l.day ≤ (constrainValue d lo hi).day) ∧
    (∀ u ∈ hi, (constrainValue d lo hi).day ≤ u.day) := by
  cases lo with
  | none =>
    cases hi with
    | none => simp
    | some u =>
      refine ⟨by simp, ?_⟩
      intro m hm
      rw [Option.mem_def, Option.some_inj] at hm
      subst hm
      exact constrain_day_hi d none u
  | some l =>
    cases hi with
    | none =>
      refine ⟨?_, by simp⟩
      intro m hm
      rw [Option.mem_def, Option.some_inj] at hm
      subst hm
      simp only [constrainValue, DateValue.compareD, apply_ite DateValue.day,
        toCalendarDate_day]
      split_ifs <;> omega
    | some u =>
      have hlu : l.day ≤ u.day := h l rfl u rfl
      constructor
      · intro m hm
        rw [Option.mem_def, Option.some_inj] at hm
        subst hm
        simp only [constrainValue, DateValue.compareD, apply_ite DateValue.day,
          toCalendarDate_day]
        split_ifs <;> omega
      · intro m hm
        rw [Option.mem_def, Option.some_inj] at hm
        subst hm
        exact constrain_day_hi d (some l) u

theorem previousAvailableDate_id (d : DateValue) (minDay : Int) (pred : Option (Int → Bool))
    (hav : ∀ p ∈ pred, p d.day = false) (hwin : pred.isSome = true → minDay ≤ d.day) :
    previousAvailableDate d minDay pred = some d := by
  cases pred with
  | none => rfl
  | some p =>
    have hp : p d.day = false := hav p rfl
    have hm : minDay ≤ d.day := hwin rfl
    have hscan : prevScanF minDay p (d.day - minDay + 1).toNat d.day = d.day := by
      cases hf : (d.day - minDay + 1).toNat with
      | zero => rfl
      | succ n =>
        show (if minDay ≤ d.day ∧ p d.day = true then prevScanF minDay p n (d.day - 1)
              else d.day) = d.day
        rw [if_neg (by simp [hp])]
    simp only [previousAvailableDate, hscan]
    rw [if_pos hm]

theorem makeRange_swap (a b : DateValue) (h : b.compareD a < 0) :
    makeRange (some a) (some b) =
      some { start := toCalendarDate b, endV := toCalendarDate a } := by
  simp [makeRange, h]

theorem makeRange_keep (a b : DateValue) (h : ¬b.compareD a < 0) :
    makeRange (some a) (some b) =
      some { start := toCalendarDate a, endV := toCalendarDate b } := by
  simp [makeRange, h]

theorem convertValue_none (n : DateValue) :
    convertValue n none = { cal := gregorian, day := n.day, time := n.time } := rfl

theorem convertValue_some_time (n o : DateValue) (t : Nat) (h : o.time = some t) :
    convertValue n (some o) = { cal := o.cal, day := n.day, time := some t } := by
  simp [convertValue, toCalendar, DateValue.set, h]

theorem convertValue_some_notime (n o : DateValue) (h : o.time = none) :
    convertValue n (some o) = { cal := o.cal, day := n.day, time := n.time } := by
  simp [convertValue, toCalendar, h]

theorem convertValue_day (n : DateValue) (o : Option DateValue) :
    (convertValue n o).day = n.day := by
  cases o with
  | none => rfl
  | some v =>
    by_cases h : v.time.isSome <;> simp [convertValue, toCalendar, DateValue.set, h]

theorem updateAvailableRange_anchor (cfg : Config) (x : Option DateValue) (s : RState) :
    (updateAvailableRange cfg x s).anchorDate = s.anchorDate := by
  cases x <;> cases h1 : cfg.isDateUnavailable <;> cases h2 : cfg.allowsNonContiguousRanges <;>
    simp [updateAvailableRange, h1, h2]

theorem updateAvailableRange_value (cfg : Config) (x : Option DateValue) (s : RState) :
    (updateAvailableRange cfg x s).value = s.value := by
  cases x <;> cases h1 : cfg.isDateUnavailable <;> cases h2 : cfg.allowsNonContiguousRanges <;>
    simp [updateAvailableRange, h1, h2]

theorem updateAvailableRange_visibleStart (cfg : Config) (x : Option DateValue) (s : RState) :
    (updateAvailableRange cfg x s).visibleStart = s.visibleStart := by
  cases x <;> cases h1 : cfg.isDateUnavailable <;> cases h2 : cfg.allowsNonContiguousRanges <;>
    simp [updateAvailableRange, h1, h2]

theorem updateAvailableRange_visibleEnd (cfg : Config) (x : Option DateValue) (s : RState) :
    (updateAvailableRange cfg x s).visibleEnd = s.visibleEnd := by
  cases x <;> cases h1 : cfg.isDateUnavailable <;> cases h2 : cfg.allowsNonContiguousRanges <;>
    simp [updateAvailableRange, h1, h2]

theorem updateAvailableRange_inv (cfg : Config) (x : Option DateValue) (s : RState)
    (h : (updateAvailableRange cfg x s).availableRange.isSome = true) :
    x.isSome = true ∧ cfg.isDateUnavailable.isSome = true ∧
      cfg.allowsNonContiguousRanges = false := by
  cases x <;> cases h1 : cfg.isDateUnavailable <;> cases h2 : cfg.allowsNonContiguousRanges <;>
    simp_all [updateAvailableRange, h1, h2]

theorem updateAvailableRange_none (cfg : Config) (s : RState) :
    (updateAvailableRange cfg none s).availableRange = none := by
  cases h1 : cfg.isDateUnavailable <;> cases h2 : cfg.allowsNonContiguousRanges <;>
    simp [updateAvailableRange, h1, h2]

theorem updateAvailableRange_some (cfg : Config) (d : DateValue) (p : Int → Bool) (s : RState)
    (h1 : cfg.isDateUnavailable = some p) (h2 : cfg.allowsNonContiguousRanges = false) :
    (updateAvailableRange cfg (some d) s).availableRange = some
      { start := nextUnavailableDate d s.visibleStart s.visibleEnd p (-1),
        endV := nextUnavailableDate d s.visibleStart s.visibleEnd p 1 } := by
  simp [updateAvailableRange, h1, h2]

theorem setAnchorDate_anchor (cfg : Config) (x : Option DateValue) (s : RState) :
    (setAnchorDate cfg x s).anchorDate = x := by
  simp [setAnchorDate, updateAvailableRange_anchor]

theorem setAnchorDate_value (cfg : Config) (x : Option DateValue) (s : RState) :
    (setAnchorDate cfg x s).value = s.value := by
  simp [setAnchorDate, updateAvailableRange_value]

theorem setAnchorDate_visibleStart (cfg : Config) (x : Option DateValue) (s : RState) :
    (setAnchorDate cfg x s).visibleStart = s.visibleStart := by
  simp [setAnchorDate, updateAvailableRange_visibleStart]

theorem setAnchorDate_none_ar (cfg : Config) (s : RState) :
    (setAnchorDate cfg none s).availableRange = none := by
  simp [setAnchorDate, updateAvailableRange_none]

theorem selectDate_readOnly (cfg : Config) (d : DateValue) (s : RState)
    (h : cfg.isReadOnly = true) : selectDate cfg d s = s := by
  simp [selectDate, h]

theorem selectDate_dropped (cfg : Config) (d : DateValue) (s : RState)
    (h1 : cfg.isReadOnly = false)
    (h2 : previousAvailableDate (constrainValue d (minB cfg s) (maxB cfg s))
            s.visibleStart cfg.isDateUnavailable = none) :
    selectDate cfg d s = s := by
  simp [selectDate, h1, h2]

theorem selectDate_first (cfg : Config) (d : DateValue) (s : RState) (d2 : DateValue)
    (h1 : cfg.isReadOnly = false)
    (h2 : previousAvailableDate (constrainValue d (minB cfg s) (maxB cfg s))
            s.visibleStart cfg.isDateUnavailable = some d2)
    (h3 : s.anchorDate = none) :
    selectDate cfg d s = setAnchorDate cfg (some d2) s := by
  simp [selectDate, h1, h2, h3]

theorem selectDate_commit (cfg : Config) (d : DateValue) (s : RState)
    (a d2 : DateValue) (r : DateRange)
    (h1 : cfg.isReadOnly = false)
    (h2 : previousAvailableDate (constrainValue d (minB cfg s) (maxB cfg s))
            s.visibleStart cfg.isDateUnavailable = some d2)
    (h3 : s.anchorDate = some a)
    (h4 : makeRange (some a) (some d2) = some r) :
    selectDate cfg d s =
      setAnchorDate cfg none { s with value := some (commitRange s.value r) } := by
  simp [selectDate, h1, h2, h3, h4]

theorem commitRange_start_day (old : Option DateRange) (r : DateRange) :
    (commitRange old r).start.day = r.start.day := by
  simp [commitRange, convertValue_day]

theorem commitRange_endV_day (old : Option DateRange) (r : DateRange) :
    (commitRange old r).endV.day = r.endV.day := by
  simp [commitRange, convertValue_day]

theorem nud_neg_le (a : DateValue) (vs ve : Int) (p : Int → Bool) (x : DateValue)
    (hx : x ∈ nextUnavailableDate a vs ve p (-1)) : x.day ≤ a.day := by
  rw [Option.mem_def] at hx
  simp only [nextUnavailableDate] at hx
  rw [if_pos (show (-1 : Int) < 0 by norm_num)] at hx
  split at hx
  · have hd := downScanF_le vs p (a.day + -1 - vs + 1).toNat (a.day + -1)
    rw [Option.some_inj] at hx
    subst hx
    dsimp only
    omega
  · exact absurd hx (by simp)

theorem nud_pos_ge (a : DateValue) (vs ve : Int) (p : Int → Bool) (x : DateValue)
    (hx : x ∈ nextUnavailableDate a vs ve p 1) : a.day ≤ x.day := by
  rw [Option.mem_def] at hx
  simp only [nextUnavailableDate] at hx
  rw [if_neg (show ¬(1 : Int) < 0 by norm_num)] at hx
  split at hx
  · have hd := upScanF_ge ve p (ve + 1 - (a.day + 1)).toNat (a.day + 1)
    rw [Option.some_inj] at hx
    subst hx
    dsimp only
    omega
  · exact absurd hx (by simp)

theorem maxDateO_day_le (a b : Option DateValue) (dd : Int)
    (ha : ∀ m ∈ a, m.day ≤ dd) (hb : ∀ m ∈ b, m.day ≤ dd) :
    ∀ m ∈ maxDateO a b, m.day ≤ dd := by
  intro m hm
  cases a with
  | none => exact hb m (by simpa [maxDateO] using hm)
  | some x =>
    cases b with
    | none => exact ha m (by simpa [maxDateO] using hm)
    | some y =>
      simp only [maxDateO] at hm
      split at hm
      · exact ha m hm
      · exact hb m hm

theorem minDateO_day_ge (a b : Option DateValue) (dd : Int)
    (ha : ∀ m ∈ a, dd ≤ m.day) (hb : ∀ m ∈ b, dd ≤ m.day) :
    ∀ m ∈ minDateO a b, dd ≤ m.day := by
  intro m hm
  cases a with
  | none => exact hb m (by simpa [minDateO] using hm)
  | some x =>
    cases b with
    | none => exact ha m (by simpa [minDateO] using hm)
    | some y =>
      simp only [minDateO] at hm
      split at hm
      · exact ha m hm
      · exact hb m hm

theorem isInvalidB_minmaxB_of_ar_none (cfg : Config) (s : RState) (d : DateValue)
    (har : s.availableRange = none)
    (hB : isInvalidB d cfg.minValue cfg.maxValue = false) :
    isInvalidB d (minB cfg s) (maxB cfg s) = false := by
  have hminB : minB cfg s = cfg.minValue := by simp [minB, har, maxDateO_none_right]
  have hmaxB : maxB cfg s = cfg.maxValue := by simp [maxB, har, minDateO_none_right]
  rw [hminB, hmaxB]
  exact hB

theorem minmaxB_after_anchor (cfg : Config) (s : RState) (d : DateValue)
    (hB : isInvalidB d cfg.minValue cfg.maxValue = false) :
    isInvalidB d (minB cfg (setAnchorDate cfg (some d) s))
      (maxB cfg (setAnchorDate cfg (some d) s)) = false := by
  cases hp : cfg.isDateUnavailable with
  | none =>
    refine isInvalidB_minmaxB_of_ar_none cfg _ d ?_ hB
    simp [setAnchorDate, updateAvailableRange, hp]
  | some p =>
    cases hn : cfg.allowsNonContiguousRanges with
    | true =>
      refine isInvalidB_minmaxB_of_ar_none cfg _ d ?_ hB
      simp [setAnchorDate, updateAvailableRange, hp, hn]
    | false =>
      have har : (setAnchorDate cfg (some d) s).availableRange = some
          ({ start := nextUnavailableDate d s.visibleStart s.visibleEnd p (-1),
             endV := nextUnavailableDate d s.visibleStart s.visibleEnd p 1 }) := by
        simp [setAnchorDate, updateAvailableRange, hp, hn]
      rw [isInvalidB_false_iff] at hB
      obtain ⟨h1, h2⟩ := hB
      rw [isInvalidB_false_iff]
      constructor
      · intro m hm
        simp only [minB, har, Option.some_bind] at hm
        refine maxDateO_day_le cfg.minValue _ d.day h1 ?_ m hm
        intro x hx
        exact nud_neg_le d s.visibleStart s.visibleEnd p x hx
      · intro m hm
        simp only [maxB, har, Option.some_bind] at hm
        refine minDateO_day_ge cfg.maxValue _ d.day h2 ?_ m hm
        intro x hx
        exact nud_pos_ge d s.visibleStart s.visibleEnd p x hx

theorem two_picks_commit (cfg : Config) (s : RState) (a b : DateValue)
    (hro : cfg.isReadOnly = false)
    (hanchor : s.anchorDate = none)
    (har : s.availableRange = none)
    (haB : isInvalidB a cfg.minValue cfg.maxValue = false)
    (haAv : ∀ p ∈ cfg.isDateUnavailable, p a.day = false)
    (haW : cfg.isDateUnavailable.isSome = true → s.visibleStart ≤ a.day)
    (hbAv : ∀ p ∈ cfg.isDateUnavailable, p b.day = false)
    (hbW : cfg.isDateUnavailable.isSome = true → s.visibleStart ≤ b.day)
    (hbB : isInvalidB b (minB cfg (selectDate cfg a s)) (maxB cfg (selectDate cfg a s)) = false) :
    selectDate cfg b (selectDate cfg a s) =
      setAnchorDate cfg none
        { (setAnchorDate cfg (some a) s) with value := some (commitRange s.value
            (if b.compareD a < 0 then { start := toCalendarDate b, endV := toCalendarDate a }
             else { start := toCalendarDate a, endV := toCalendarDate b })) } := by
  have hminB : minB cfg s = cfg.minValue := by simp [minB, har, maxDateO_none_right]
  have hmaxB : maxB cfg s = cfg.maxValue := by simp [maxB, har, minDateO_none_right]
  have hclampA : constrainValue a (minB cfg s) (maxB cfg s) = a := by
    rw [hminB, hmaxB]
    exact constrain_id a cfg.minValue cfg.maxValue haB
  have hs1 : selectDate cfg a s = setAnchorDate cfg (some a) s :=
    selectDate_first cfg a s a hro
      (by rw [hclampA]
          exact previousAvailableDate_id a s.visibleStart cfg.isDateUnavailable haAv haW)
      hanchor
  have h1a : (selectDate cfg a s).anchorDate = some a := by
    rw [hs1, setAnchorDate_anchor]
  have h1w : (selectDate cfg a s).visibleStart = s.visibleStart := by
    rw [hs1, setAnchorDate_visibleStart]
  have hclampB : constrainValue b (minB cfg (selectDate cfg a s))
      (maxB cfg (selectDate cfg a s)) = b :=
    constrain_id b _ _ hbB
  have hsnapB : previousAvailableDate
      (constrainValue b (minB cfg (selectDate cfg a s)) (maxB cfg (selectDate cfg a s)))
      (selectDate cfg a s).visibleStart cfg.isDateUnavailable = some b := by
    rw [hclampB, h1w]
    exact previousAvailableDate_id b s.visibleStart cfg.isDateUnavailable hbAv hbW
  have hmk : makeRange (some a) (some b) = some
      (if b.compareD a < 0 then { start := toCalendarDate b, endV := toCalendarDate a }
       else { start := toCalendarDate a, endV := toCalendarDate b }) := by
    split_ifs with h
    · exact makeRange_swap a b h
    · exact makeRange_keep a b h
  have hs2 := selectDate_commit cfg b (selectDate cfg a s) a b _ hro hsnapB h1a hmk
  rw [hs2, hs1, setAnchorDate_value]

/-- C7: for every state and candidate date, when `isReadOnly` is true a
`selectDate` call returns without any effect — the committed value, the
anchor date and the available range (the whole state) are unchanged. -/
theorem C7_selectDate_readOnly_noop (cfg : Config) (d : DateValue) (s : RState)
    (h : cfg.isReadOnly = true) : selectDate cfg d s = s :=
  selectDate_readOnly cfg d s h

theorem C7_witness :
    cfgRO.isReadOnly = true ∧ selectDate cfgRO (mkDate 0 7) (initState none 0 30) = initState none 0 30 :=
  ⟨rfl, C7_selectDate_readOnly_noop cfgRO (mkDate 0 7) (initState none 0 30) rfl⟩

/-- C8: for a committed value present at construction time, the initial
window alignment is `center` on the value's start, except that when the
value's end falls after the last day of the window obtained by centering on
the start (window start plus the visible duration minus one day), the
alignment is `start` instead. -/
theorem C8_alignment_characterization (cfg : Config) (v : DateRange) :
    (alignmentOf cfg (some v) = Alignment.start ↔
      cfg.addVisibleDur (cfg.alignCenterF v.start.day) - 1 < v.endV.day) ∧
    (alignmentOf cfg (some v) = Alignment.center ↔
      v.endV.day ≤ cfg.addVisibleDur (cfg.alignCenterF v.start.day) - 1) := by
  unfold alignmentOf
  dsimp only [DateValue.compareD, toCalendarDate_day]
  split_ifs with h
  · exact ⟨⟨fun _ => by omega, fun _ => rfl⟩,
      ⟨fun hh => absurd hh (by decide), fun hh => absurd h (by omega)⟩⟩
  · exact ⟨⟨fun hh => absurd hh (by decide), fun hh => absurd h (by omega)⟩,
      ⟨fun _ => by omega, fun _ => rfl⟩⟩

theorem C8_witness :
    alignmentOf cfgA (some { start := mkDate 0 4, endV := mkDate 0 9 }) = Alignment.start ∧
    alignmentOf cfgA (some { start := mkDate 0 4, endV := mkDate 0 3 }) = Alignment.center :=
  ⟨(C8_alignment_characterization cfgA { start := mkDate 0 4, endV := mkDate 0 9 }).1.mpr
      (by decide),
   (C8_alignment_characterization cfgA { start := mkDate 0 4, endV := mkDate 0 3 }).2.mpr
      (by decide)⟩

/-- C2: the directional scan walks one day at a time from `anchor + d` in
direction `d` while the date is inside the window and available; if it stops
at an in-window unavailable date it returns the date one step back toward the
anchor (the last available date before the obstruction); if the walk leaves
the window without ever hitting an unavailable date (the stopping probe one
past the edge included), it returns absent — the window edge itself imposes
no boundary. -/
theorem C2_scan_characterization (anchor : DateValue) (visStart visEnd : Int)
    (p : Int → Bool) :
    (∀ k : Int, 1 ≤ k → anchor.day + k ≤ visEnd →
       (∀ j : Int, 1 ≤ j → j < k → p (anchor.day + j) = false) →
       p (anchor.day + k) = true →
       nextUnavailableDate anchor visStart visEnd p 1 =
         some { anchor with day := anchor.day + k - 1 }) ∧
    (anchor.day ≤ visEnd →
       (∀ j : Int, anchor.day < j → j ≤ visEnd → p j = false) →
       p (visEnd + 1) = false →
       nextUnavailableDate anchor visStart visEnd p 1 = none) ∧
    (∀ k : Int, 1 ≤ k → visStart ≤ anchor.day - k →
       (∀ j : Int, 1 ≤ j → j < k → p (anchor.day - j) = false) →
       p (anchor.day - k) = true →
       nextUnavailableDate anchor visStart visEnd p (-1) =
         some { anchor with day := anchor.day - k + 1 }) ∧
    (visStart ≤ anchor.day →
       (∀ j : Int, visStart ≤ j → j < anchor.day → p j = false) →
       p (visStart - 1) = false →
       nextUnavailableDate anchor visStart visEnd p (-1) = none) := by
  refine ⟨?_, ?_, ?_, ?_⟩
  · intro k hk1 hk2 hall hpk
    have hstop : upScanF visEnd p (visEnd + 1 - (anchor.day + 1)).toNat (anchor.day + 1) =
        anchor.day + k := by
      apply upScanF_spec
      · omega
      · omega
      · intro j hj1 hj2
        refine ⟨by omega, ?_⟩
        have h := hall (j - anchor.day) (by omega) (by omega)
        have he : anchor.day + (j - anchor.day) = j := by omega
        rw [he] at h
        exact h
      · intro hc
        rw [hpk] at hc
        simp at hc
    simp only [nextUnavailableDate]
    rw [if_neg (show ¬(1 : Int) < 0 by norm_num)]
    rw [hstop, if_pos hpk]
  · intro hwin hall hpe
    have hstop : upScanF visEnd p (visEnd + 1 - (anchor.day + 1)).toNat (anchor.day + 1) =
        visEnd + 1 := by
      apply upScanF_spec
      · omega
      · omega
      · intro j hj1 hj2
        exact ⟨by omega, hall j (by omega) (by omega)⟩
      · intro hc
        omega
    simp only [nextUnavailableDate]
    rw [if_neg (show ¬(1 : Int) < 0 by norm_num)]
    rw [hstop, if_neg (by simp [hpe])]
  · intro k hk1 hk2 hall hpk
    have hstop : downScanF visStart p (anchor.day + -1 - visStart + 1).toNat (anchor.day + -1) =
        anchor.day - k := by
      apply downScanF_spec
      · omega
      · omega
      · intro j hj1 hj2
        refine ⟨by omega, ?_⟩
        have h := hall (anchor.day - j) (by omega) (by omega)
        have he : anchor.day - (anchor.day - j) = j := by omega
        rw [he] at h
        exact h
      · intro hc
        rw [hpk] at hc
        simp at hc
    simp only [nextUnavailableDate]
    rw [if_pos (show (-1 : Int) < 0 by norm_num)]
    rw [hstop, if_pos hpk]
    simp [sub_neg_eq_add]
  · intro hwin hall hpe
    have hstop : downScanF visStart p (anchor.day + -1 - visStart + 1).toNat (anchor.day + -1) =
        visStart - 1 := by
      apply downScanF_spec
      · omega
      · omega
      · intro j hj1 hj2
        exact ⟨by omega, hall j (by omega) (by omega)⟩
      · intro hc
        omega
    simp only [nextUnavailableDate]
    rw [if_pos (show (-1 : Int) < 0 by norm_num)]
    rw [hstop, if_neg (by simp [hpe])]

theorem C2_witness :
    nextUnavailableDate (mkDate 0 0) (-10) 10 (fun d => decide (d = 3)) 1 = some (mkDate 0 2) ∧
    nextUnavailableDate (mkDate 0 0) (-10) 10 (fun _ => false) (-1) = none := by
  constructor
  · exact (C2_scan_characterization (mkDate 0 0) (-10) 10 (fun d => decide (d = 3))).1 3
      (by decide) (by decide)
      (fun j h1 h2 => by simp only [mkDate, decide_eq_false_iff_not]; omega)
      (by decide)
  · exact (C2_scan_characterization (mkDate 0 0) (-10) 10 (fun _ => false)).2.2.2
      (by decide) (fun j _ _ => rfl) rfl

/-- C5: for every pick whose clamped candidate is unavailable, the snap moves
the candidate day by day toward the start of the visible window until an
available date is found; if every date from the candidate back to the window
start is unavailable, the snap yields absent and the pick is silently
dropped with no state change at all. -/
theorem C5_snap_backward_and_drop :
    (∀ (c : DateValue) (visStart : Int) (p : Int → Bool) (e : Int),
       visStart ≤ e → e ≤ c.day → p e = false →
       (∀ j : Int, e < j → j ≤ c.day → p j = true) →
       previousAvailableDate c visStart (some p) = some { c with day := e }) ∧
    (∀ (c : DateValue) (visStart : Int) (p : Int → Bool),
       (∀ j : Int, visStart ≤ j → j ≤ c.day → p j = true) →
       previousAvailableDate c visStart (some p) = none) ∧
    (∀ (cfg : Config) (s : RState) (d : DateValue),
       cfg.isReadOnly = false →
       previousAvailableDate (constrainValue d (minB cfg s) (maxB cfg s))
         s.visibleStart cfg.isDateUnavailable = none →
       selectDate cfg d s = s) := by
  refine ⟨?_, ?_, ?_⟩
  · intro c visStart p e he1 he2 hpe hall
    have hscan : prevScanF visStart p (c.day - visStart + 1).toNat c.day = e := by
      apply prevScanF_spec
      · omega
      · omega
      · intro j hj1 hj2
        exact ⟨by omega, hall j hj1 hj2⟩
      · intro hc
        rw [hpe] at hc
        simp at hc
    simp only [previousAvailableDate, hscan]
    rw [if_pos he1]
  · intro c visStart p hall
    by_cases hw : visStart ≤ c.day
    · have hscan : prevScanF visStart p (c.day - visStart + 1).toNat c.day = visStart - 1 := by
        apply prevScanF_spec
        · omega
        · omega
        · intro j hj1 hj2
          exact ⟨by omega, hall j (by omega) hj2⟩
        · intro hc
          omega
      simp only [previousAvailableDate, hscan]
      rw [if_neg (by omega)]
    · have hscan : prevScanF visStart p (c.day - visStart + 1).toNat c.day = c.day := by
        apply prevScanF_spec
        · omega
        · omega
        · intro j hj1 hj2
          omega
        · intro hc
          omega
      simp only [previousAvailableDate, hscan]
      rw [if_neg (by omega)]
  · intro cfg s d h1 h2
    exact selectDate_dropped cfg d s h1 h2

theorem C5_witness :
    previousAvailableDate (mkDate 0 20) 0 (some (fun d => decide (10 ≤ d ∧ d ≤ 20))) =
      some (mkDate 0 9) ∧
    previousAvailableDate (mkDate 0 3) 0 (some (fun _ => true)) = none ∧
    selectDate { cfgA with isDateUnavailable := some (fun _ => true) } (mkDate 0 7)
      (initState none 0 30) = initState none 0 30 := by
  refine ⟨?_, ?_, ?_⟩
  · exact C5_snap_backward_and_drop.1 (mkDate 0 20) 0 (fun d => decide (10 ≤ d ∧ d ≤ 20)) 9
      (by decide) (by decide) (by decide)
      (fun j h1 h2 => by simp only [mkDate, decide_eq_true_eq] at *; omega)
  · exact C5_snap_backward_and_drop.2.1 (mkDate 0 3) 0 (fun _ => true) (fun j _ _ => rfl)
  · exact C5_snap_backward_and_drop.2.2 _ _ _ rfl (by decide)

theorem first_pick_eq (cfg : Config) (s : RState) (a : DateValue)
    (hro : cfg.isReadOnly = false)
    (hanchor : s.anchorDate = none)
    (har : s.availableRange = none)
    (haB : isInvalidB a cfg.minValue cfg.maxValue = false)
    (haAv : ∀ p ∈ cfg.isDateUnavailable, p a.day = false)
    (haW : cfg.isDateUnavailable.isSome = true → s.visibleStart ≤ a.day) :
    selectDate cfg a s = setAnchorDate cfg (some a) s := by
  have hminB : minB cfg s = cfg.minValue := by simp [minB, har, maxDateO_none_right]
  have hmaxB : maxB cfg s = cfg.maxValue := by simp [maxB, har, minDateO_none_right]
  have hclampA : constrainValue a (minB cfg s) (maxB cfg s) = a := by
    rw [hminB, hmaxB]
    exact constrain_id a cfg.minValue cfg.maxValue haB
  exact selectDate_first cfg a s a hro
    (by rw [hclampA]
        exact previousAvailableDate_id a s.visibleStart cfg.isDateUnavailable haAv haW)
    hanchor

/-- C1 counterexample: with day 5 unavailable, both picks 3 and 7 available
and no caller bounds, the two picks commit `{3, 4}` (the second pick is
clamped to the availability boundary), not the normalized range `{3, 7}` the
claim demands. -/
theorem C1_counterexample :
    cellUnavailable cfgA 3 = false ∧ cellUnavailable cfgA 7 = false ∧
    cfgA.minValue = none ∧ cfgA.maxValue = none ∧
    (initState none 0 30).anchorDate = none ∧
    makeRange (some (mkDate 0 3)) (some (mkDate 0 7)) =
      some { start := mkDate 0 3, endV := mkDate 0 7 } ∧
    (selectDate cfgA (mkDate 0 7) (selectDate cfgA (mkDate 0 3) (initState none 0 30))).value =
      some { start := mkDate 0 3, endV := mkDate 0 4 } ∧
    ({ start := mkDate 0 3, endV := mkDate 0 4 } : DateRange) ≠
      { start := mkDate 0 3, endV := mkDate 0 7 } := by
  decide

/-- C1 (amended): for every pair of dates `a`, `b` in caller bounds,
available, at or after the visible window start, starting from a state with
no anchor and no stored available range, and with `b` also inside the
effective bounds active after `a` became the anchor (caller bounds combined
with the availability scan around `a`), the sequence
`selectDate a; selectDate b` commits the normalized range of `{a, b}` — start
on the earlier day, end on the later day, swapped when `b < a` — and clears
the anchor, regardless of whether `a < b` or `a > b`. -/
theorem C1_two_picks_commit_normalized (cfg : Config) (s : RState) (a b : DateValue)
    (hro : cfg.isReadOnly = false)
    (hanchor : s.anchorDate = none)
    (har : s.availableRange = none)
    (haB : isInvalidB a cfg.minValue cfg.maxValue = false)
    (haAv : ∀ p ∈ cfg.isDateUnavailable, p a.day = false)
    (haW : cfg.isDateUnavailable.isSome = true → s.visibleStart ≤ a.day)
    (hbAv : ∀ p ∈ cfg.isDateUnavailable, p b.day = false)
    (hbW : cfg.isDateUnavailable.isSome = true → s.visibleStart ≤ b.day)
    (hbB : isInvalidB b (minB cfg (selectDate cfg a s))
             (maxB cfg (selectDate cfg a s)) = false) :
    (selectDate cfg b (selectDate cfg a s)).anchorDate = none ∧
    ∃ r : DateRange, (selectDate cfg b (selectDate cfg a s)).value = some r ∧
      r.start.day = min a.day b.day ∧ r.endV.day = max a.day b.day ∧
      r.start.day ≤ r.endV.day := by
  have h2 := two_picks_commit cfg s a b hro hanchor har haB haAv haW hbAv hbW hbB
  refine ⟨by rw [h2, setAnchorDate_anchor], ?_⟩
  by_cases hcmp : b.compareD a < 0
  · have hba : b.day < a.day := by
      have hc := hcmp
      simp only [DateValue.compareD] at hc
      omega
    rw [if_pos hcmp] at h2
    refine ⟨commitRange s.value { start := toCalendarDate b, endV := toCalendarDate a },
      ?_, ?_, ?_, ?_⟩
    · rw [h2, setAnchorDate_value]
    · rw [commitRange_start_day]
      show (toCalendarDate b).day = min a.day b.day
      rw [toCalendarDate_day]
      omega
    · rw [commitRange_endV_day]
      show (toCalendarDate a).day = max a.day b.day
      rw [toCalendarDate_day]
      omega
    · rw [commitRange_start_day, commitRange_endV_day]
      show (toCalendarDate b).day ≤ (toCalendarDate a).day
      rw [toCalendarDate_day, toCalendarDate_day]
      omega
  · have hab : a.day ≤ b.day := by
      have hc := hcmp
      simp only [DateValue.compareD] at hc
      omega
    rw [if_neg hcmp] at h2
    refine ⟨commitRange s.value { start := toCalendarDate a, endV := toCalendarDate b },
      ?_, ?_, ?_, ?_⟩
    · rw [h2, setAnchorDate_value]
    · rw [commitRange_start_day]
      show (toCalendarDate a).day = min a.day b.day
      rw [toCalendarDate_day]
      omega
    · rw [commitRange_endV_day]
      show (toCalendarDate b).day = max a.day b.day
      rw [toCalendarDate_day]
      omega
    · rw [commitRange_start_day, commitRange_endV_day]
      show (toCalendarDate a).day ≤ (toCalendarDate b).day
      rw [toCalendarDate_day, toCalendarDate_day]
      omega

theorem C1_witness :
    (selectDate cfgB (mkDate 0 7) (selectDate cfgB (mkDate 0 3) (initState none 0 30))).anchorDate = none ∧
    ∃ r : DateRange,
      (selectDate cfgB (mkDate 0 7) (selectDate cfgB (mkDate 0 3) (initState none 0 30))).value = some r ∧
      r.start.day = min (mkDate 0 3).day (mkDate 0 7).day ∧
      r.endV.day = max (mkDate 0 3).day (mkDate 0 7).day ∧
      r.start.day ≤ r.endV.day :=
  C1_two_picks_commit_normalized cfgB (initState none 0 30) (mkDate 0 3) (mkDate 0 7)
    rfl rfl rfl (by decide) (by decide) (fun _ => by decide) (by decide)
    (fun _ => by decide) (by decide)

/-- C9 counterexample: with an unavailability predicate supplied (marking
only day 100, so day 5 is available) and caller bounds 0..50, picking day 5
twice against the visible window 10..40 commits nothing: the snap helper
returns null for any date before the window start, so both picks are silently
dropped and the state is unchanged — the claim's `{start: d, end: d}` commit
does not happen. -/
theorem C9_counterexample :
    isInvalidB (mkDate 0 5) cfgB.minValue cfgB.maxValue = false ∧
    cellUnavailable cfgB 5 = false ∧
    (initState none 10 40).anchorDate = none ∧
    selectDate cfgB (mkDate 0 5) (selectDate cfgB (mkDate 0 5) (initState none 10 40)) =
      initState none 10 40 ∧
    (selectDate cfgB (mkDate 0 5) (selectDate cfgB (mkDate 0 5) (initState none 10 40))).value =
      none := by
  decide

/-- C9 (amended): picking the same in-bounds available date twice from a
state with no anchor and no stored available range commits the single-day
range on that date — normalization with equal endpoints performs no swap and
yields start = end — provided the date is at or after the visible window
start whenever an unavailability predicate is supplied (otherwise the snap
helper drops the pick, as the counterexample shows). -/
theorem C9_same_pick_twice (cfg : Config) (s : RState) (d : DateValue)
    (hro : cfg.isReadOnly = false)
    (hanchor : s.anchorDate = none)
    (har : s.availableRange = none)
    (hB : isInvalidB d cfg.minValue cfg.maxValue = false)
    (hAv : ∀ p ∈ cfg.isDateUnavailable, p d.day = false)
    (hW : cfg.isDateUnavailable.isSome = true → s.visibleStart ≤ d.day) :
    makeRange (some d) (some d) =
      some { start := toCalendarDate d, endV := toCalendarDate d } ∧
    (selectDate cfg d (selectDate cfg d s)).anchorDate = none ∧
    ∃ r : DateRange, (selectDate cfg d (selectDate cfg d s)).value = some r ∧
      r.start.day = d.day ∧ r.endV.day = d.day := by
  have hs1 := first_pick_eq cfg s d hro hanchor har hB hAv hW
  have hbB : isInvalidB d (minB cfg (selectDate cfg d s))
      (maxB cfg (selectDate cfg d s)) = false := by
    rw [hs1]
    exact minmaxB_after_anchor cfg s d hB
  have h2 := two_picks_commit cfg s d d hro hanchor har hB hAv hW hAv hW hbB
  have hmrk : makeRange (some d) (some d) =
      some { start := toCalendarDate d, endV := toCalendarDate d } :=
    makeRange_keep d d (by simp [DateValue.compareD])
  rw [ite_self] at h2
  refine ⟨hmrk, by rw [h2, setAnchorDate_anchor], ?_⟩
  refine ⟨commitRange s.value { start := toCalendarDate d, endV := toCalendarDate d },
    ?_, ?_, ?_⟩
  · rw [h2, setAnchorDate_value]
  · rw [commitRange_start_day]
    exact toCalendarDate_day d
  · rw [commitRange_endV_day]
    exact toCalendarDate_day d

theorem C9_witness :
    makeRange (some (mkDate 0 7)) (some (mkDate 0 7)) =
      some { start := mkDate 0 7, endV := mkDate 0 7 } ∧
    (selectDate cfgB (mkDate 0 7) (selectDate cfgB (mkDate 0 7) (initState none 0 30))).anchorDate = none ∧
    ∃ r : DateRange,
      (selectDate cfgB (mkDate 0 7) (selectDate cfgB (mkDate 0 7) (initState none 0 30))).value = some r ∧
      r.start.day = (mkDate 0 7).day ∧ r.endV.day = (mkDate 0 7).day :=
  C9_same_pick_twice cfgB (initState none 0 30) (mkDate 0 7)
    rfl rfl rfl (by decide) (by decide) (fun _ => by decide)

theorem maxDateO_ge_left (a b : Option DateValue) :
    ∀ l ∈ a, ∀ x ∈ maxDateO a b, l.day ≤ x.day := by
  intro l hl x hx
  cases a with
  | none => exact absurd hl (by simp)
  | some la =>
    rw [Option.mem_def, Option.some_inj] at hl
    subst hl
    cases b with
    | none =>
      rw [maxDateO_none_right, Option.mem_def, Option.some_inj] at hx
      subst hx
      exact le_rfl
    | some y =>
      simp only [maxDateO] at hx
      split at hx
      · rw [Option.mem_def, Option.some_inj] at hx
        subst hx
        exact le_rfl
      · rw [Option.mem_def, Option.some_inj] at hx
        subst hx
        rename_i hcond
        simp only [DateValue.compareD] at hcond
        omega

theorem minDateO_le_left (a b : Option DateValue) :
    ∀ u ∈ a, ∀ x ∈ minDateO a b, x.day ≤ u.day := by
  intro u hu x hx
  cases a with
  | none => exact absurd hu (by simp)
  | some ua =>
    rw [Option.mem_def, Option.some_inj] at hu
    subst hu
    cases b with
    | none =>
      rw [minDateO_none_right, Option.mem_def, Option.some_inj] at hx
      subst hx
      exact le_rfl
    | some y =>
      simp only [minDateO] at hx
      split at hx
      · rw [Option.mem_def, Option.some_inj] at hx
        subst hx
        exact le_rfl
      · rw [Option.mem_def, Option.some_inj] at hx
        subst hx
        rename_i hcond
        simp only [DateValue.compareD] at hcond
        omega

theorem maxDateO_none_left_none (a b : Option DateValue) (h : maxDateO a b = none) :
    a = none := by
  cases a with
  | none => rfl
  | some x =>
    cases b with
    | none => exact absurd h (by simp [maxDateO])
    | some y =>
      simp only [maxDateO] at h
      split at h <;> exact Option.noConfusion h

theorem minDateO_none_left_none (a b : Option DateValue) (h : minDateO a b = none) :
    a = none := by
  cases a with
  | none => rfl
  | some x =>
    cases b with
    | none => exact absurd h (by simp [minDateO])
    | some y =>
      simp only [minDateO] at h
      split at h <;> exact Option.noConfusion h

theorem isInvalidB_day_congr (d1 d2 : DateValue) (lo hi : Option DateValue)
    (h : d1.day = d2.day) : isInvalidB d1 lo hi = isInvalidB d2 lo hi := by
  simp [isInvalidB, DateValue.compareD, h]

theorem commit_within_bounds_aux (cfg : Config) (s : RState) (anc c b : DateValue)
    (hro : cfg.isReadOnly = false)
    (hanchor : s.anchorDate = some anc)
    (hsnap : previousAvailableDate (constrainValue b (minB cfg s) (maxB cfg s))
               s.visibleStart cfg.isDateUnavailable = some c)
    (hancB : isInvalidB anc cfg.minValue cfg.maxValue = false)
    (hcB : isInvalidB c cfg.minValue cfg.maxValue = false) :
    ∃ r : DateRange, (selectDate cfg b s).value = some r ∧
      isInvalidB r.start cfg.minValue cfg.maxValue = false ∧
      isInvalidB r.endV cfg.minValue cfg.maxValue = false := by
  by_cases hcmp : c.compareD anc < 0
  · have hmk := makeRange_swap anc c hcmp
    have hs2 := selectDate_commit cfg b s anc c _ hro hsnap hanchor hmk
    refine ⟨commitRange s.value { start := toCalendarDate c, endV := toCalendarDate anc },
      ?_, ?_, ?_⟩
    · rw [hs2, setAnchorDate_value]
    · rw [isInvalidB_day_congr _ c cfg.minValue cfg.maxValue
        (by rw [commitRange_start_day]; exact toCalendarDate_day c)]
      exact hcB
    · rw [isInvalidB_day_congr _ anc cfg.minValue cfg.maxValue
        (by rw [commitRange_endV_day]; exact toCalendarDate_day anc)]
      exact hancB
  · have hmk := makeRange_keep anc c hcmp
    have hs2 := selectDate_commit cfg b s anc c _ hro hsnap hanchor hmk
    refine ⟨commitRange s.value { start := toCalendarDate anc, endV := toCalendarDate c },
      ?_, ?_, ?_⟩
    · rw [hs2, setAnchorDate_value]
    · rw [isInvalidB_day_congr _ anc cfg.minValue cfg.maxValue
        (by rw [commitRange_start_day]; exact toCalendarDate_day anc)]
      exact hancB
    · rw [isInvalidB_day_congr _ c cfg.minValue cfg.maxValue
        (by rw [commitRange_endV_day]; exact toCalendarDate_day c)]
      exact hcB

/-- C4 counterexample: with bounds 10..20 and every day of 10..20
unavailable, the out-of-bounds pick 25 (twice) commits the range `{9, 9}` —
the backward snap moves the clamped candidate below `minValue`, so a
committed endpoint falls outside `[minValue, maxValue]`, contradicting the
claim's consequence. -/
theorem C4_counterexample :
    isInvalidB (mkDate 0 25) cfgC.minValue cfgC.maxValue = true ∧
    (selectDate cfgC (mkDate 0 25) (selectDate cfgC (mkDate 0 25) (initState none 0 30))).value =
      some { start := mkDate 0 9, endV := mkDate 0 9 } ∧
    isInvalidB (mkDate 0 9) cfgC.minValue cfgC.maxValue = true := by
  decide

/-- C4 (amended): `selectDate` clamps the candidate into
`[effectiveMin, effectiveMax]` with `effectiveMin = max(minValue,
availableRange.start)` and `effectiveMax = min(maxValue, availableRange.end)`
(a missing bound acting as identity), and the clamped candidate lies inside
the effective interval whenever that interval is nonempty; consequently, for
any pick — in or out of bounds — if the anchor lies within
`[minValue, maxValue]`, the effective interval is nonempty and the clamped
candidate is available (so the backward snap does not move it), every
endpoint of the committed range lies within `[minValue, maxValue]`.  (The
backward snap can otherwise move an endpoint below `minValue`, as the
counterexample shows.) -/
theorem C4_clamping_and_bounds :
    (∀ (cfg : Config) (s : RState),
       minB cfg s = maxDateO cfg.minValue (s.availableRange.bind AvailableRange.start) ∧
       maxB cfg s = minDateO cfg.maxValue (s.availableRange.bind AvailableRange.endV)) ∧
    (∀ (d : DateValue) (lo hi : Option DateValue),
       (∀ l ∈ lo, ∀ u ∈ hi, l.day ≤ u.day) →
       (∀ l ∈ lo, l.day ≤ (constrainValue d lo hi).day) ∧
       (∀ u ∈ hi, (constrainValue d lo hi).day ≤ u.day)) ∧
    (∀ (cfg : Config) (s : RState) (anc b : DateValue),
       cfg.isReadOnly = false →
       s.anchorDate = some anc →
       isInvalidB anc cfg.minValue cfg.maxValue = false →
       (∀ l ∈ minB cfg s, ∀ u ∈ maxB cfg s, l.day ≤ u.day) →
       (∀ p ∈ cfg.isDateUnavailable,
          p (constrainValue b (minB cfg s) (maxB cfg s)).day = false) →
       (cfg.isDateUnavailable.isSome = true →
          s.visibleStart ≤ (constrainValue b (minB cfg s) (maxB cfg s)).day) →
       ∃ r : DateRange, (selectDate cfg b s).value = some r ∧
         isInvalidB r.start cfg.minValue cfg.maxValue = false ∧
         isInvalidB r.endV cfg.minValue cfg.maxValue = false) := by
  refine ⟨fun cfg s => ⟨rfl, rfl⟩, fun d lo hi h => constrain_day_bounds d lo hi h, ?_⟩
  intro cfg s anc b hro hanchor hancB heff hsnapAv hsnapW
  have hsnap := previousAvailableDate_id (constrainValue b (minB cfg s) (maxB cfg s))
    s.visibleStart cfg.isDateUnavailable hsnapAv hsnapW
  have hcB : isInvalidB (constrainValue b (minB cfg s) (maxB cfg s))
      cfg.minValue cfg.maxValue = false := by
    rw [isInvalidB_false_iff]
    obtain ⟨hcd1, hcd2⟩ := constrain_day_bounds b (minB cfg s) (maxB cfg s) heff
    constructor
    · intro l hl
      cases hmb : minB cfg s with
      | none =>
        have hnone : cfg.minValue = none := by
          have hmb' := hmb
          simp only [minB] at hmb'
          exact maxDateO_none_left_none _ _ hmb'
        rw [hnone] at hl
        exact absurd hl (by simp)
      | some x =>
        have hx : x ∈ minB cfg s := hmb
        have h1 : l.day ≤ x.day := by
          have hmb' := hmb
          simp only [minB] at hmb'
          exact maxDateO_ge_left cfg.minValue _ l hl x hmb'
        have h2 := hcd1 x hx
        rw [hmb] at h2
        exact le_trans h1 h2
    · intro u hu
      cases hmb : maxB cfg s with
      | none =>
        have hnone : cfg.maxValue = none := by
          have hmb' := hmb
          simp only [maxB] at hmb'
          exact minDateO_none_left_none _ _ hmb'
        rw [hnone] at hu
        exact absurd hu (by simp)
      | some x =>
        have hx : x ∈ maxB cfg s := hmb
        have h1 : x.day ≤ u.day := by
          have hmb' := hmb
          simp only [maxB] at hmb'
          exact minDateO_le_left cfg.maxValue _ u hu x hmb'
        have h2 := hcd2 x hx
        rw [hmb] at h2
        exact le_trans h2 h1
  exact commit_within_bounds_aux cfg s anc _ b hro hanchor hsnap hancB hcB

theorem C4_witness :
    ∃ r : DateRange, (selectDate cfgF (mkDate 0 60) sAnch).value = some r ∧
      isInvalidB r.start cfgF.minValue cfgF.maxValue = false ∧
      isInvalidB r.endV cfgF.minValue cfgF.maxValue = false :=
  C4_clamping_and_bounds.2.2 cfgF sAnch (mkDate 0 3) (mkDate 0 60)
    rfl rfl (by decide) (by decide) (by decide) (fun h => by decide)

/-- C3: `convertValue` converts the new endpoint into the calendar system of
the old endpoint when one exists and into Gregorian otherwise; when the old
endpoint carried a time-of-day, the emitted endpoint carries exactly that
time-of-day with only the date portion changed, and otherwise the emitted
endpoint keeps the (empty) time of the picked calendar date; the rule is
applied per endpoint in the commit (start against old start, end against old
end), so a time-of-day on the old start never bleeds into the committed
end. -/
theorem C3_convertValue_characterization :
    (∀ n o : DateValue, (convertValue n (some o)).cal = o.cal) ∧
    (∀ n : DateValue, convertValue n none =
      { cal := gregorian, day := n.day, time := n.time }) ∧
    (∀ (n o : DateValue) (t : Nat), o.time = some t →
       convertValue n (some o) = { cal := o.cal, day := n.day, time := some t }) ∧
    (∀ n o : DateValue, o.time = none →
       convertValue n (some o) = { cal := o.cal, day := n.day, time := n.time }) ∧
    (∀ (cfg : Config) (s : RState) (a d d2 : DateValue) (v : DateRange) (t : Nat),
       cfg.isReadOnly = false →
       s.anchorDate = some a →
       s.value = some v →
       v.start.time = some t →
       v.endV.time = none →
       previousAvailableDate (constrainValue d (minB cfg s) (maxB cfg s))
         s.visibleStart cfg.isDateUnavailable = some d2 →
       ∃ r : DateRange, (selectDate cfg d s).value = some r ∧
         r.start.time = some t ∧ r.start.cal = v.start.cal ∧
         r.endV.time = none ∧ r.endV.cal = v.endV.cal) := by
  refine ⟨?_, ?_, ?_, ?_, ?_⟩
  · intro n o
    by_cases h : o.time.isSome <;> simp [convertValue, toCalendar, DateValue.set, h]
  · intro n
    rfl
  · intro n o t h
    exact convertValue_some_time n o t h
  · intro n o h
    exact convertValue_some_notime n o h
  · intro cfg s a d d2 v t hro hanchor hval hst het hsnap
    obtain ⟨R, hmk, hRs, hRe⟩ : ∃ R : DateRange, makeRange (some a) (some d2) = some R ∧
        R.start.time = none ∧ R.endV.time = none := by
      by_cases hcmp : d2.compareD a < 0
      · exact ⟨_, makeRange_swap a d2 hcmp, rfl, rfl⟩
      · exact ⟨_, makeRange_keep a d2 hcmp, rfl, rfl⟩
    have hv2 : (selectDate cfg d s).value = some (commitRange s.value R) := by
      rw [selectDate_commit cfg d s a d2 R hro hsnap hanchor hmk, setAnchorDate_value]
    refine ⟨commitRange s.value R, hv2, ?_, ?_, ?_, ?_⟩
    · rw [hval]
      show (convertValue R.start (some v.start)).time = some t
      rw [convertValue_some_time _ _ t hst]
    · rw [hval]
      show (convertValue R.start (some v.start)).cal = v.start.cal
      rw [convertValue_some_time _ _ t hst]
    · rw [hval]
      show (convertValue R.endV (some v.endV)).time = none
      rw [convertValue_some_notime _ _ het]
      exact hRe
    · rw [hval]
      show (convertValue R.endV (some v.endV)).cal = v.endV.cal
      rw [convertValue_some_notime _ _ het]

theorem C3_witness :
    convertValue (mkDate 0 12) (some (mkDateTime 2 5 9)) = mkDateTime 2 12 9 ∧
    ∃ r : DateRange, (selectDate cfgE (mkDate 0 12) sTime).value = some r ∧
      r.start.time = some 9 ∧ r.start.cal = 2 ∧ r.endV.time = none ∧ r.endV.cal = 1 :=
  ⟨C3_convertValue_characterization.2.2.1 (mkDate 0 12) (mkDateTime 2 5 9) 9 rfl,
   C3_convertValue_characterization.2.2.2.2 cfgE sTime (mkDate 0 3) (mkDate 0 12) (mkDate 0 12)
     { start := mkDateTime 2 5 9, endV := mkDate 1 8 } 9
     rfl rfl rfl rfl rfl (by decide)⟩

/-- C6 counterexample: with a committed value on the unavailable day 5, no
anchor, and an explicit caller flag of `valid`, the code returns `valid` —
not `invalid` as the claim's iff (endpoint unavailable ⇒ invalid) demands:
the caller flag overrides the derived check. -/
theorem C6_counterexample :
    (initState (some { start := mkDate 0 5, endV := mkDate 0 5 }) 0 30).anchorDate = none ∧
    cellUnavailable cfgD 5 = true ∧
    cfgD.validationStateProp = some VState.valid ∧
    validationState cfgD (initState (some { start := mkDate 0 5, endV := mkDate 0 5 }) 0 30) =
      some VState.valid ∧
    validationState cfgD (initState (some { start := mkDate 0 5, endV := mkDate 0 5 }) 0 30) ≠
      some VState.invalid := by
  decide

/-- C6 (amended): a supplied caller validation flag is returned verbatim and
takes precedence over everything (so a flag of `valid` suppresses the derived
invalidity, and a flag of `invalid` is reported even mid-selection or without
a value); with no caller flag and a committed value present and no active
anchor, the state is `invalid` iff the unavailability predicate marks either
endpoint unavailable or either endpoint falls outside the caller min/max
bounds, and otherwise there is no validation state; with no caller flag, an
active anchor or an absent value yields no validation state. -/
theorem C6_validationState_characterization (cfg : Config) (s : RState) :
    (∀ v : VState, cfg.validationStateProp = some v → validationState cfg s = some v) ∧
    (cfg.validationStateProp = none → ∀ val : DateRange, s.value = some val →
       s.anchorDate = none →
       (validationState cfg s = some VState.invalid ↔
         (cellUnavailable cfg val.start.day || cellUnavailable cfg val.endV.day ||
          isInvalidB val.start cfg.minValue cfg.maxValue ||
          isInvalidB val.endV cfg.minValue cfg.maxValue) = true) ∧
       (validationState cfg s = none ↔
         (cellUnavailable cfg val.start.day || cellUnavailable cfg val.endV.day ||
          isInvalidB val.start cfg.minValue cfg.maxValue ||
          isInvalidB val.endV cfg.minValue cfg.maxValue) = false)) ∧
    (cfg.validationStateProp = none → s.anchorDate.isSome = true →
       validationState cfg s = none) ∧
    (cfg.validationStateProp = none → s.value = none →
       validationState cfg s = none) := by
  refine ⟨?_, ?_, ?_, ?_⟩
  · intro v hv
    simp [validationState, hv]
  · intro hnone val hval hanchor
    have hsel : isInvalidSelection cfg s =
        (cellUnavailable cfg val.start.day || cellUnavailable cfg val.endV.day ||
         isInvalidB val.start cfg.minValue cfg.maxValue ||
         isInvalidB val.endV cfg.minValue cfg.maxValue) := by
      simp only [isInvalidSelection, hval, hanchor]
      cases hp : cfg.isDateUnavailable <;> simp [cellUnavailable, hp]
    constructor
    · simp only [validationState, hnone, hsel]
      split_ifs with h <;> simp [h]
    · simp only [validationState, hnone, hsel]
      split_ifs with h <;> simp [h]
  · intro hnone hanch
    have hsel : isInvalidSelection cfg s = false := by
      cases hv : s.value with
      | none => cases ha : s.anchorDate <;> simp [isInvalidSelection, hv, ha]
      | some val =>
        cases ha : s.anchorDate with
        | none => rw [ha] at hanch; simp at hanch
        | some x => simp [isInvalidSelection, hv, ha]
    simp [validationState, hnone, hsel]
  · intro hnone hval
    have hsel : isInvalidSelection cfg s = false := by
      cases ha : s.anchorDate <;> simp [isInvalidSelection, hval, ha]
    simp [validationState, hnone, hsel]

theorem C6_witness :
    validationState cfgA (initState (some { start := mkDate 0 5, endV := mkDate 0 5 }) 0 30) =
      some VState.invalid ∧
    validationState cfgA (initState none 0 30) = none :=
  ⟨((C6_validationState_characterization cfgA
      (initState (some { start := mkDate 0 5, endV := mkDate 0 5 }) 0 30)).2.1
      rfl { start := mkDate 0 5, endV := mkDate 0 5 } rfl rfl).1.mpr (by decide),
   (C6_validationState_characterization cfgA (initState none 0 30)).2.2.2 rfl rfl⟩

theorem setAnchorDate_inv (cfg : Config) (x : Option DateValue) (s : RState) :
    arInvariant cfg (setAnchorDate cfg x s) := by
  intro h
  have hx := updateAvailableRange_inv cfg x { s with anchorDate := x } h
  refine ⟨?_, hx.2.1, hx.2.2⟩
  rw [setAnchorDate_anchor]
  exact hx.1

theorem makeRange_some_some (a b : DateValue) :
    ∃ r : DateRange, makeRange (some a) (some b) = some r := by
  by_cases h : b.compareD a < 0
  · exact ⟨_, makeRange_swap a b h⟩
  · exact ⟨_, makeRange_keep a b h⟩

theorem arInvariant_of_ar_none (cfg : Config) (s : RState)
    (h : s.availableRange = none) : arInvariant cfg s := by
  intro hs
  rw [h] at hs
  simp at hs

/-- C10: the stored available range is present only while an anchor is set, a
caller unavailability predicate is supplied and non-contiguous ranges are not
allowed; `selectDate`, `setAnchorDate` and a visible-window change all
preserve this invariant; a commit or a cancellation clears the stored range,
after which the `isInvalid` query reduces to the grid's own per-cell check —
it no longer flags dates beyond the old obstruction. -/
theorem C10_availableRange_invariant (cfg : Config) :
    (∀ (d : DateValue) (s : RState), arInvariant cfg s →
       arInvariant cfg (selectDate cfg d s)) ∧
    (∀ (x : Option DateValue) (s : RState), arInvariant cfg (setAnchorDate cfg x s)) ∧
    (∀ s : RState, (setAnchorDate cfg none s).availableRange = none) ∧
    (∀ (ws we : Int) (s : RState), arInvariant cfg (setVisibleRange cfg ws we s)) ∧
    (∀ (s : RState) (a d d2 : DateValue),
       cfg.isReadOnly = false →
       s.anchorDate = some a →
       previousAvailableDate (constrainValue d (minB cfg s) (maxB cfg s))
         s.visibleStart cfg.isDateUnavailable = some d2 →
       (selectDate cfg d s).availableRange = none) ∧
    (∀ (s : RState) (q : DateValue), s.availableRange = none →
       rangeIsInvalid cfg s q = cfg.gridIsInvalid q.day) := by
  refine ⟨?_, ?_, ?_, ?_, ?_, ?_⟩
  · intro d s hInv
    cases hro : cfg.isReadOnly with
    | true =>
      rw [selectDate_readOnly cfg d s hro]
      exact hInv
    | false =>
      cases hsnap : previousAvailableDate (constrainValue d (minB cfg s) (maxB cfg s))
          s.visibleStart cfg.isDateUnavailable with
      | none =>
        rw [selectDate_dropped cfg d s hro hsnap]
        exact hInv
      | some d2 =>
        cases hanchor : s.anchorDate with
        | none =>
          rw [selectDate_first cfg d s d2 hro hsnap hanchor]
          exact setAnchorDate_inv cfg (some d2) s
        | some a =>
          obtain ⟨r, hmk⟩ := makeRange_some_some a d2
          rw [selectDate_commit cfg d s a d2 r hro hsnap hanchor hmk]
          exact arInvariant_of_ar_none cfg _ (setAnchorDate_none_ar cfg _)
  · intro x s
    exact setAnchorDate_inv cfg x s
  · intro s
    exact setAnchorDate_none_ar cfg s
  · intro ws we s
    intro h
    have hx := updateAvailableRange_inv cfg s.anchorDate
      { s with visibleStart := ws, visibleEnd := we } h
    refine ⟨?_, hx.2.1, hx.2.2⟩
    rw [show (setVisibleRange cfg ws we s).anchorDate = s.anchorDate from
      updateAvailableRange_anchor cfg s.anchorDate _]
    exact hx.1
  · intro s a d d2 hro hanchor hsnap
    obtain ⟨r, hmk⟩ := makeRange_some_some a d2
    rw [selectDate_commit cfg d s a d2 r hro hsnap hanchor hmk]
    exact setAnchorDate_none_ar cfg _
  · intro s q har
    simp [rangeIsInvalid, har, isInvalidB]

theorem C10_witness :
    arInvariant cfgA (selectDate cfgA (mkDate 0 3) (initState none 0 30)) ∧
    (selectDate cfgA (mkDate 0 7) (selectDate cfgA (mkDate 0 3) (initState none 0 30))).availableRange = none ∧
    rangeIsInvalid cfgA (initState none 0 30) (mkDate 0 21) = false :=
  ⟨(C10_availableRange_invariant cfgA).1 (mkDate 0 3) (initState none 0 30)
      (fun h => absurd h (by decide)),
   (C10_availableRange_invariant cfgA).2.2.2.2.1
      (selectDate cfgA (mkDate 0 3) (initState none 0 30))
      (mkDate 0 3) (mkDate 0 7) (mkDate 0 4) rfl (by decide) (by decide),
   (C10_availableRange_invariant cfgA).2.2.2.2.2 (initState none 0 30) (mkDate 0 21) rfl⟩

end RangeCal
